import Mathlib

/-!
Shallow embedding of the safeconfig field hierarchy
(src/safeconfig/config/field.py, variable.py, array.py, struct.py).

Python plain values (the codec-ready representation consumed by set()/validate()
and produced by get()) are modelled by `Value`; Python None is `Value.vnone`.
Floats carry an abstract integer payload: only type identity matters to the
code under verification, no float arithmetic is performed.

Exceptions are modelled structurally by `Err`.  The source distinguishes
exception classes: AttributeError (requiredness, unknown field, wrapping),
ValueError (type mismatch in Variable.validate), TypeError and KeyError
(raw container access); the wrapping handlers catch AttributeError only,
which `Err.isAttr` captures.

A field instance is a `Field`: the declared data type, the stored (already
validated) default, the optionality flag, and the instance state
(`value` for Variable, `values` for Array, `fields` for Struct).  A Struct
also carries its class name and its class-level schema.  Mutation is made
explicit: `Field.set` returns the post state together with the raised error,
if any, reflecting the partial in-place mutation of the source; `get` and
`validate` perform no assignment to stored state in the source and are
translated as pure functions.
-/

set_option maxHeartbeats 1600000

namespace SafeConfig

/-- The primitive data types a Variable can declare. -/
inductive PTy where
  | int
  | float
  | str
  | bool
deriving DecidableEq

/-- Plain Python values: None, primitives, lists and string-keyed dicts. -/
inductive Value where
  | vnone
  | vint (n : Int)
  | vfloat (payload : Int)
  | vstr (s : String)
  | vbool (b : Bool)
  | vlist (xs : List Value)
  | vdict (kvs : List (String × Value))

/-- Python `value is None`. -/
def Value.isNone : Value → Bool
  | .vnone => true
  | _ => false

/-- The name of a primitive type (used in type-mismatch messages). -/
def PTy.name : PTy → String
  | .int => "int"
  | .float => "float"
  | .str => "str"
  | .bool => "bool"

/-- Python type(v).\_\_name\_\_ for a plain value. -/
def Value.typeName : Value → String
  | .vnone => "NoneType"
  | .vint _ => "int"
  | .vfloat _ => "float"
  | .vstr _ => "str"
  | .vbool _ => "bool"
  | .vlist _ => "list"
  | .vdict _ => "dict"

/-- Python isinstance(v, T) for the primitive types.  bool is a subclass of
int in Python, so a bool is an instance of int; int is not an instance of
float and float is not an instance of int. -/
def isinst : Value → PTy → Bool
  | .vint _, .int => true
  | .vbool _, .bool => true
  | .vbool _, .int => true
  | .vfloat _, .float => true
  | .vstr _, .str => true
  | _, _ => false

/-- Whether the type of v is exactly T (Python type(v) is T).  Used only to
state the claim about exact-type checking; the source uses isinstance. -/
def exactType : Value → PTy → Bool
  | .vint _, .int => true
  | .vbool _, .bool => true
  | .vfloat _, .float => true
  | .vstr _, .str => true
  | _, _ => false

/-- Structural model of the exceptions raised by the source.
requiredNone: AttributeError "Required variable/array/struct cannot be None".
typeMismatch: ValueError "Invalid data type, expected ..., got ...".
unknownField: AttributeError "Field ... does not exist in type ...".
noKeys: AttributeError raised by value.keys() on a non-mapping.
notIterable: TypeError from iterating a non-sequence.
keyError: KeyError from a raw dict subscript on \_fields.
notSubscriptable: TypeError from string-subscripting a non-Struct field.
arrayNone: AttributeError "Array is None".
cantDelete: AttributeError from Struct.\_\_delete\_\_.
atIndex / atField / atFlat: the AttributeError re-raised by the wrapping
handlers, tagged with an element index, a field name, or a flat key. -/
inductive Err where
  | requiredNone (kind : String)
  | typeMismatch (expected actual : String)
  | unknownField (name tyName : String)
  | noKeys (actual : String)
  | notIterable (actual : String)
  | keyError (name : String)
  | notSubscriptable (kind : String)
  | arrayNone
  | cantDelete (name tyName : String)
  | atIndex (op : String) (i : Nat) (e : Err)
  | atField (op : String) (field tyName : String) (e : Err)
  | atFlat (op : String) (flatKey : String) (e : Err)
deriving DecidableEq

/-- Which modelled exceptions are Python AttributeError instances.  The
wrapping handlers in the source (Array.set/get/validate, Struct.set/get/
validate, get\_flat, set\_flat) catch AttributeError only; ValueError
(typeMismatch), TypeError (notIterable, notSubscriptable) and KeyError
(keyError) pass through those handlers untouched. -/
def Err.isAttr : Err → Bool
  | .typeMismatch _ _ => false
  | .notIterable _ => false
  | .notSubscriptable _ => false
  | .keyError _ => false
  | _ => true

/-- A field instance.  var carries the declared primitive type; arr carries
the element template produced by \_create\_field (a fresh required,
default-less Variable or Struct instance); struct carries its class name,
the class-level schema, and the live instance field map (empty until the
schema is deep-cloned into it). -/
inductive Field where
  | var (ty : PTy) (dflt : Value) (optional : Bool) (value : Value)
  | arr (elem : Field) (dflt : Value) (optional : Bool) (values : Option (List Field))
  | struct (tyName : String) (schema : List (String × Field)) (dflt : Value) (optional : Bool) (fields : List (String × Field))

/-- Python value.get(name, None) on a dict modelled as an association list. -/
def dictGet (kvs : List (String × Value)) (nm : String) : Value :=
  match kvs.lookup nm with
  | some v => v
  | none => .vnone

/-- The key list of an association list (dict iteration order). -/
def keyNames {α : Type} (l : List (String × α)) : List String :=
  l.map Prod.fst

/-- The first key of the input dict that is not a declared field name
(the source iterates value.keys() and raises on the first unknown one). -/
def findUnknown (kvs : List (String × Value)) (ns : List String) : Option String :=
  (kvs.map Prod.fst).find? (fun k => !ns.contains k)

/-- Re-raise an element failure tagged with its index, as the handler
`except AttributeError` does; other exception classes pass through. -/
def wrapIdx (op : String) (i : Nat) (e : Err) : Err :=
  if e.isAttr then .atIndex op i e else e

/-- Re-raise a field failure tagged with the field name, as the handler
`except AttributeError` does; other exception classes pass through. -/
def wrapField (op : String) (nm tn : String) (e : Err) : Err :=
  if e.isAttr then .atField op nm tn e else e

/-- The enumerate(value) iteration of a plain value, as Python iterates it:
a list yields its elements, a string its characters (each a one-character
string), a dict its keys; None and the remaining primitives are not
iterable (Python TypeError). -/
def iterElems : Value → Option (List Value)
  | .vlist xs => some xs
  | .vstr s => some (s.data.map (fun c => Value.vstr (String.mk [c])))
  | .vdict kvs => some (kvs.map (fun p => Value.vstr p.fst))
  | _ => none

mutual

/-- Variable.validate, Array.validate and Struct.validate.  None resolves to
the stored default (Struct returns its stored default directly; Array
validates the default elements), else to None when optional, else fails;
a non-None value gets the kind-specific check.  The source bodies contain
no assignment to stored state, so validate is translated as a pure
function of the receiver and the value. -/
def Field.validate : Field → Value → Except Err Value
  | .var ty d o _, v =>
    if v.isNone then
      if d.isNone then
        if !o then .error (.requiredNone "variable") else .ok .vnone
      else .ok d
    else
      if isinst v ty then .ok v
      else .error (.typeMismatch ty.name v.typeName)
  | .arr elem d o _, v =>
    if v.isNone then
      if d.isNone then
        if !o then .error (.requiredNone "array") else .ok .vnone
      else Field.validateElems elem d
    else Field.validateElems elem v
  | .struct tn sch d o _, v =>
    if v.isNone then
      if d.isNone then
        if !o then .error (.requiredNone "struct") else .ok .vnone
      else .ok d
    else
      match v with
      | .vdict kvs =>
        match findUnknown kvs (keyNames sch) with
        | some bad => .error (.unknownField bad tn)
        | none =>
          match Field.validateFields tn sch kvs with
          | .ok outs => .ok (.vdict outs)
          | .error e => .error e
      | _ => .error (.noKeys v.typeName)
termination_by f _ => (sizeOf f, 0, 0)

/-- The element loop shared by the non-None branches of Array.validate:
enumerate the input (list elements, string characters or dict keys),
validating each element through the factory template; a non-iterable
input raises TypeError. -/
def Field.validateElems (elem : Field) (v : Value) : Except Err Value :=
  match iterElems v with
  | some xs =>
    match Field.validateList elem xs 0 with
    | .ok outs => .ok (.vlist outs)
    | .error e => .error e
  | none => .error (.notIterable v.typeName)
termination_by (sizeOf elem, 2, 0)

/-- enumerate(value) loop of Array.validate: element failures that are
AttributeError are re-raised tagged with the 0-based index. -/
def Field.validateList (elem : Field) : List Value → Nat → Except Err (List Value)
  | [], _ => .ok []
  | x :: xs, i =>
    match Field.validate elem x with
    | .ok w =>
      match Field.validateList elem xs (i + 1) with
      | .ok ws => .ok (w :: ws)
      | .error e => .error e
    | .error e => .error (wrapIdx "validating" i e)
termination_by xs _ => (sizeOf elem, 1, xs.length)

/-- Loop of Struct.validate over the schema: every schema field validates
value.get(name, None); AttributeError failures are re-raised tagged with
the field name. -/
def Field.validateFields (tn : String) : List (String × Field) → List (String × Value) → Except Err (List (String × Value))
  | [], _ => .ok []
  | (nm, t) :: rest, kvs =>
    match Field.validate t (dictGet kvs nm) with
    | .ok w =>
      match Field.validateFields tn rest kvs with
      | .ok outs => .ok ((nm, w) :: outs)
      | .error e => .error e
    | .error e => .error (wrapField "validating" nm tn e)
termination_by l _ => (sizeOf l, 1, 0)

end

mutual

/-- Variable.set, Array.set and Struct.set.  Mutation is explicit: the result
is the post state paired with the raised error, if any.  On failure the
state reflects how far the in-place mutation got: a Variable or Array is
left unchanged (their assignment happens after the whole validation), while
a Struct keeps the schema clone and the fields already set. -/
def Field.set : Field → Value → Field × Option Err
  | .var ty d o w, v =>
    match Field.validate (.var ty d o w) v with
    | .ok w2 => (.var ty d o w2, none)
    | .error e => (.var ty d o w, some e)
  | .arr elem d o vs, v =>
    if v.isNone then
      if d.isNone then
        if !o then (.arr elem d o vs, some (.requiredNone "array"))
        else (.arr elem d o none, none)
      else Field.setElems elem d o vs d
    else Field.setElems elem d o vs v
  | .struct tn sch d o flds, v =>
    if v.isNone then
      if d.isNone then
        if !o then (.struct tn sch d o flds, some (.requiredNone "struct"))
        else (.struct tn sch d o [], none)
      else Field.setStructBody tn sch d o (if flds.isEmpty then sch else flds) d
    else Field.setStructBody tn sch d o (if flds.isEmpty then sch else flds) v
termination_by f _ => (sizeOf f, 0, 0)
decreasing_by
  all_goals simp_wf
  all_goals apply Prod.Lex.left
  all_goals try split
  all_goals omega

/-- The element loop shared by the non-None branches of Array.set: enumerate
the input (list elements, string characters or dict keys) and build the new
element list from fresh factory fields; \_values is replaced only after the
whole loop succeeds, so a failed set leaves the old elements. -/
def Field.setElems (elem : Field) (d : Value) (o : Bool) (vs : Option (List Field)) (v : Value) : Field × Option Err :=
  match iterElems v with
  | some xs =>
    match Field.setList elem xs 0 with
    | .ok out => (.arr elem d o (some out), none)
    | .error e => (.arr elem d o vs, some e)
  | none => (.arr elem d o vs, some (.notIterable v.typeName))
termination_by (sizeOf elem, 2, 0)

/-- enumerate(value) loop of Array.set: each element is set on a fresh field
from the factory; AttributeError failures are re-raised tagged with the
0-based index. -/
def Field.setList (elem : Field) : List Value → Nat → Except Err (List Field)
  | [], _ => .ok []
  | x :: xs, i =>
    match Field.set elem x with
    | (f, none) =>
      match Field.setList elem xs (i + 1) with
      | .ok rest => .ok (f :: rest)
      | .error e => .error e
    | (_, some e) => .error (wrapIdx "setting" i e)
termination_by xs _ => (sizeOf elem, 1, xs.length)

/-- Body of Struct.set after null handling: the instance field map is the
schema clone when it was empty (flds0); any input key outside it fails as
unknown; then every instance field is set with value.get(name, None),
AttributeError failures re-raised tagged with the field name. -/
def Field.setStructBody (tn : String) (sch : List (String × Field)) (d : Value) (o : Bool) (flds0 : List (String × Field)) (v : Value) : Field × Option Err :=
  match v with
  | .vdict kvs =>
    match findUnknown kvs (keyNames flds0) with
    | some bad => (.struct tn sch d o flds0, some (.unknownField bad tn))
    | none =>
      match Field.setFields tn kvs flds0 with
      | (out, e) => (.struct tn sch d o out, e)
  | _ => (.struct tn sch d o flds0, some (.noKeys v.typeName))
termination_by (sizeOf flds0, 2, 0)

/-- Loop of Struct.set over the instance fields, mutating each in order and
stopping at the first failure (the already-set prefix keeps its new state,
the remaining fields keep their old state). -/
def Field.setFields (tn : String) (kvs : List (String × Value)) : List (String × Field) → List (String × Field) × Option Err
  | [] => ([], none)
  | (nm, t) :: rest =>
    match Field.set t (dictGet kvs nm) with
    | (f, none) =>
      match Field.setFields tn kvs rest with
      | (out, e) => ((nm, f) :: out, e)
    | (f, some e) => ((nm, f) :: rest, some (wrapField "setting" nm tn e))
termination_by l => (sizeOf l, 1, 0)

end

mutual

/-- Variable.get, Array.get and Struct.get.  A field holding no value fails
when required and reads as None when optional; the stored default does not
participate.  Child failures are re-raised tagged with the element index or
field name.  The source bodies contain no assignment to stored state. -/
def Field.get : Field → Except Err Value
  | .var _ _ o w =>
    if w.isNone then
      if !o then .error (.requiredNone "variable") else .ok .vnone
    else .ok w
  | .arr _ _ o vs =>
    match vs with
    | none => if !o then .error (.requiredNone "array") else .ok .vnone
    | some l =>
      match Field.getList l 0 with
      | .ok outs => .ok (.vlist outs)
      | .error e => .error e
  | .struct tn _ _ o flds =>
    if flds.isEmpty then
      if !o then .error (.requiredNone "struct") else .ok .vnone
    else
      match Field.getFields tn flds with
      | .ok outs => .ok (.vdict outs)
      | .error e => .error e
termination_by f => (sizeOf f, 0)

/-- enumerate loop of Array.get. -/
def Field.getList : List Field → Nat → Except Err (List Value)
  | [], _ => .ok []
  | f :: fs, i =>
    match Field.get f with
    | .ok v =>
      match Field.getList fs (i + 1) with
      | .ok vs => .ok (v :: vs)
      | .error e => .error e
    | .error e => .error (wrapIdx "getting" i e)
termination_by l _ => (sizeOf l, 1)

/-- Loop of Struct.get over the instance fields. -/
def Field.getFields (tn : String) : List (String × Field) → Except Err (List (String × Value))
  | [] => .ok []
  | (nm, f) :: rest =>
    match Field.get f with
    | .ok v =>
      match Field.getFields tn rest with
      | .ok outs => .ok ((nm, v) :: outs)
      | .error e => .error e
    | .error e => .error (wrapField "getting" nm tn e)
termination_by l => (sizeOf l, 1)

end

/-- The optionality flag of a field (the \_optional attribute). -/
def Field.optionalOf : Field → Bool
  | .var _ _ o _ => o
  | .arr _ _ o _ => o
  | .struct _ _ _ o _ => o

/-- The stored default of a field (the \_default attribute, None when absent). -/
def Field.dfltOf : Field → Value
  | .var _ d _ _ => d
  | .arr _ d _ _ => d
  | .struct _ _ d _ _ => d

/-- The deletable property of \_Field: a field is deletable when it is
optional or has a default. -/
def Field.deletable (f : Field) : Bool :=
  f.optionalOf || !f.dfltOf.isNone

/-- Replace the first binding of a key in an association list, keeping the
binding order, as assigning through a Python dict entry does. -/
def replaceKey : List (String × Field) → String → Field → List (String × Field)
  | [], _, _ => []
  | (nm, f) :: rest, k, g =>
    if nm = k then (nm, g) :: rest else (nm, f) :: replaceKey rest k g

/-- Subscripting a field with a string key.  Struct.\_\_getitem\_\_ subscripts
the instance field map directly, so a missing name raises KeyError and the
result is the live child field object, not its value.  Array.\_\_getitem\_\_
first raises the Array-is-None AttributeError when \_values is None, and
otherwise fails on the string index with a Python TypeError; a Variable is
not subscriptable at all (TypeError). -/
def Field.getitem : Field → String → Except Err Field
  | .struct _ _ _ _ flds, k =>
    match flds.lookup k with
    | some f => .ok f
    | none => .error (.keyError k)
  | .var _ _ _ _, _ => .error (.notSubscriptable "variable")
  | .arr _ _ _ none, _ => .error .arrayNone
  | .arr _ _ _ (some _), _ => .error (.notSubscriptable "array")

/-- Struct.\_\_setitem\_\_: set the live child field under the key in place;
a missing name raises KeyError.  Array.\_\_setitem\_\_ first raises the
Array-is-None AttributeError when \_values is None and otherwise fails on
the string index with a TypeError; a Variable is not subscriptable. -/
def Field.setitem : Field → String → Value → Field × Option Err
  | .struct tn sch d o flds, k, v =>
    match flds.lookup k with
    | some f =>
      match Field.set f v with
      | (f2, e) => (.struct tn sch d o (replaceKey flds k f2), e)
    | none => (.struct tn sch d o flds, some (.keyError k))
  | .var ty d o w, _, _ => (.var ty d o w, some (.notSubscriptable "variable"))
  | .arr elem d o none, _, _ => (.arr elem d o none, some .arrayNone)
  | .arr elem d o (some l), _, _ => (.arr elem d o (some l), some (.notSubscriptable "array"))

/-- Rebuild a struct with one child replaced (the explicit-state image of the
in-place mutation of a child object reached through \_fields). -/
def Field.replaceChild : Field → String → Field → Field
  | .struct tn sch d o flds, k, c => .struct tn sch d o (replaceKey flds k c)
  | f, _, _ => f

/-- Descent loop of Struct.get\_flat: `p = self; for k in keys: p = p[k]`.
Every segment, the last one included, goes through string subscripting, so
the result is the live field object. -/
def Field.getFlatGo : Field → List String → Except Err Field
  | f, [] => .ok f
  | f, k :: ks =>
    match Field.getitem f k with
    | .ok c => Field.getFlatGo c ks
    | .error e => .error e

/-- Struct.get\_flat with the default separator: split the flat key on the
separator (the Python str.split, a stdlib primitive, is modelled by its
result: the nonempty list of key segments), descend by subscripting, and
re-raise AttributeError tagged with the flat key (KeyError and TypeError
pass the handler untouched). -/
def Field.get_flat (f : Field) (keys : List String) : Except Err Field :=
  match Field.getFlatGo f keys with
  | .ok g => .ok g
  | .error e =>
    .error (if e.isAttr then .atFlat "accessing" (String.intercalate "." keys) e else e)

/-- Descent loop of Struct.set\_flat: subscript through all but the last
segment, then assign through \_\_setitem\_\_ on the last segment.  The key
list coming from String.splitOn is never empty. -/
def Field.setFlatGo : Field → List String → Value → Field × Option Err
  | f, [], _ => (f, none)
  | f, [k], v => Field.setitem f k v
  | f, k :: k2 :: ks, v =>
    match Field.getitem f k with
    | .ok c =>
      match Field.setFlatGo c (k2 :: ks) v with
      | (c2, e) => (Field.replaceChild f k c2, e)
    | .error e => (f, some e)

/-- Struct.set\_flat with the default separator: descend along the key
segments (the split flat key), assign on the last segment, and re-raise
AttributeError tagged with the flat key. -/
def Field.set_flat (f : Field) (keys : List String) (v : Value) : Field × Option Err :=
  match Field.setFlatGo f keys v with
  | (f2, none) => (f2, none)
  | (f2, some e) =>
    (f2, some (if e.isAttr then .atFlat "setting" (String.intercalate "." keys) e else e))

/-- Struct.\_\_delete\_\_: look up the live child; when the child is optional
or has a default, raise the cant-delete AttributeError (this is the literal
source condition); otherwise call child.set(None). -/
def Field.delete : Field → String → Field × Option Err
  | .struct tn sch d o flds, k =>
    match flds.lookup k with
    | some f =>
      if f.optionalOf || !f.dfltOf.isNone then
        (.struct tn sch d o flds, some (.cantDelete k tn))
      else
        match Field.set f .vnone with
        | (f2, e) => (.struct tn sch d o (replaceKey flds k f2), e)
    | none => (.struct tn sch d o flds, some (.keyError k))
  | f, _ => (f, some (.notSubscriptable "field"))

/-- Python equality between a plain value and a \_Field instance: \_Field
defines no \_\_eq\_\_, so == falls back to object identity, and a plain
primitive, list or dict is never the same object as a field wrapper; the
comparison is always False. -/
def pyEqValueField : Value → Field → Bool := fun _ _ => false

/-- Array.\_\_contains\_\_: raises when \_values is None, otherwise evaluates
`value in self._values`, a scan of the element field objects compared with
Python ==. -/
def Field.containsElem : Field → Value → Except Err Bool
  | .arr _ _ _ none, _ => .error .arrayNone
  | .arr _ _ _ (some l), v => .ok (l.any (fun g => pyEqValueField v g))
  | _, _ => .error (.notSubscriptable "field")

/-- Struct.\_\_contains\_\_: whether the name is a key of the live instance
field map (not of the class schema). -/
def Field.containsKey : Field → String → Bool
  | .struct _ _ _ _ flds, k => (keyNames flds).contains k
  | _, _ => false

/-- Struct.\_\_len\_\_: the number of live instance fields. -/
def Field.lenStruct : Field → Nat
  | .struct _ _ _ _ flds => flds.length
  | _ => 0

/-- Variable.\_\_init\_\_ composed with \_Field.\_\_init\_\_: \_value starts
as None; a non-None default is validated (with \_value still None) and
stored; an invalid default propagates the validation error. -/
def variableInit (ty : PTy) (dflt : Value) (o : Bool) : Except Err Field :=
  if dflt.isNone then .ok (.var ty .vnone o .vnone)
  else
    match Field.validate (.var ty .vnone o .vnone) dflt with
    | .ok d2 => .ok (.var ty d2 o .vnone)
    | .error e => .error e

/-- Array.\_\_init\_\_ composed with \_Field.\_\_init\_\_: the element factory
template is given as `elem` (a fresh required default-less Variable of the
element type, or a fresh instance of the element Struct schema); \_values
starts as None; a non-None default is validated and stored. -/
def arrayInit (elem : Field) (dflt : Value) (o : Bool) : Except Err Field :=
  if dflt.isNone then .ok (.arr elem .vnone o none)
  else
    match Field.validate (.arr elem .vnone o none) dflt with
    | .ok d2 => .ok (.arr elem d2 o none)
    | .error e => .error e

/-- Struct.\_\_init\_\_ composed with \_Field.\_\_init\_\_: the instance field
map starts empty and stays empty during construction; a non-None default is
validated against the class schema and stored. -/
def structInit (tn : String) (sch : List (String × Field)) (dflt : Value) (o : Bool) : Except Err Field :=
  if dflt.isNone then .ok (.struct tn sch .vnone o [])
  else
    match Field.validate (.struct tn sch .vnone o []) dflt with
    | .ok d2 => .ok (.struct tn sch d2 o [])
    | .error e => .error e

/-- Whether a field currently holds no value: \_value is None, \_values is
None, or the instance field map is empty (Python truthiness of \_fields). -/
def Field.unset : Field → Bool
  | .var _ _ _ w => w.isNone
  | .arr _ _ _ vs => vs.isNone
  | .struct _ _ _ _ flds => flds.isEmpty

/-- The kind word in the required-None message of each field class. -/
def Field.kindName : Field → String
  | .var _ _ _ _ => "variable"
  | .arr _ _ _ _ => "array"
  | .struct _ _ _ _ _ => "struct"

/-- Two fields with the same declaration: same data type, stored default and
optionality, and the same element template (arrays) or class name and
schema (structs); the instance state is unconstrained.  A deepcopy of a
schema template and the template itself are related this way. -/
def sameSpec : Field → Field → Prop
  | .var t d o _, .var t2 d2 o2 _ => t = t2 ∧ d = d2 ∧ o = o2
  | .arr e d o _, .arr e2 d2 o2 _ => e = e2 ∧ d = d2 ∧ o = o2
  | .struct n sch d o _, .struct n2 sch2 d2 o2 _ => n = n2 ∧ sch = sch2 ∧ d = d2 ∧ o = o2
  | _, _ => False

mutual

/-- Invariant of instances reachable through the constructors and set():
array elements are built by the element factory, so they share the template
declaration and conform; a struct has a nonempty class schema with distinct
names and conforming templates, and its instance field map is either still
empty or a name-by-name deep clone of the schema whose children conform. -/
def conform : Field → Prop
  | .var _ _ _ _ => True
  | .arr elem _ _ vs =>
    conform elem ∧
      (match vs with
       | none => True
       | some l => conformElems l elem)
  | .struct _ sch _ _ flds =>
    sch ≠ [] ∧ (keyNames sch).Nodup ∧ conformSchema sch ∧
      (flds = [] ∨ conformFields flds sch)
termination_by f => (sizeOf f, 0)

/-- Every element of a live array matches the factory template and conforms. -/
def conformElems : List Field → Field → Prop
  | [], _ => True
  | g :: gs, elem => sameSpec g elem ∧ conform g ∧ conformElems gs elem
termination_by l elem => (sizeOf l + sizeOf elem, 1)

/-- Every schema template conforms. -/
def conformSchema : List (String × Field) → Prop
  | [] => True
  | (_, t) :: rest => conform t ∧ conformSchema rest
termination_by l => (sizeOf l, 1)

/-- The instance field map is a name-by-name clone of the schema: same names
in the same order, each child declared like its template, each conforming. -/
def conformFields : List (String × Field) → List (String × Field) → Prop
  | [], [] => True
  | (nm, g) :: gs, (nm2, t) :: ts =>
    nm = nm2 ∧ sameSpec g t ∧ conform g ∧ conformFields gs ts
  | _, _ => False
termination_by gs ts => (sizeOf gs + sizeOf ts, 1)

end

theorem isNone_iff (v : Value) : v.isNone = true ↔ v = .vnone := by
  cases v <;> simp [Value.isNone]

theorem isNone_false_iff (v : Value) : v.isNone = false ↔ v ≠ .vnone := by
  cases v <;> simp [Value.isNone]

theorem vnone_isNone : Value.vnone.isNone = true := rfl

theorem wrapIdx_isAttr (op : String) (i : Nat) (e : Err) :
    (wrapIdx op i e).isAttr = e.isAttr := by
  unfold wrapIdx
  split <;> simp_all [Err.isAttr]

theorem wrapField_isAttr (op nm tn : String) (e : Err) :
    (wrapField op nm tn e).isAttr = e.isAttr := by
  unfold wrapField
  split <;> simp_all [Err.isAttr]

/-- An error escaping the element loop of Array.get is index-tagged, given
that element get errors are AttributeError instances. -/
theorem getList_err_shape (l : List Field) :
    ∀ (i : Nat) (e : Err),
      (∀ g ∈ l, ∀ e2, Field.get g = .error e2 → e2.isAttr = true) →
      Field.getList l i = .error e → ∃ j e2, e2.isAttr = true ∧ e = .atIndex "getting" j e2 := by
  induction l with
  | nil =>
    intro i e _ h
    simp [Field.getList] at h
  | cons f fs ih =>
    intro i e hmem h
    rw [Field.getList] at h
    cases hf : Field.get f with
    | error e2 =>
      rw [hf] at h
      have hattr : e2.isAttr = true := hmem f (by simp) e2 hf
      simp only [Except.error.injEq] at h
      refine ⟨i, e2, hattr, ?_⟩
      rw [← h]
      simp [wrapIdx, hattr]
    | ok v =>
      rw [hf] at h
      cases hrest : Field.getList fs (i + 1) with
      | ok vs => rw [hrest] at h; simp at h
      | error e3 =>
        rw [hrest] at h
        simp only [Except.error.injEq] at h
        obtain ⟨j, e2, hattr, hshape⟩ := ih (i + 1) e3 (fun g hg => hmem g (by simp [hg])) hrest
        exact ⟨j, e2, hattr, h ▸ hshape⟩

/-- An error escaping the field loop of Struct.get is name-tagged, given
that child get errors are AttributeError instances. -/
theorem getFields_err_shape (tn : String) (l : List (String × Field)) :
    ∀ (e : Err),
      (∀ p ∈ l, ∀ e2, Field.get p.snd = .error e2 → e2.isAttr = true) →
      Field.getFields tn l = .error e → ∃ nm e2, e2.isAttr = true ∧ e = .atField "getting" nm tn e2 := by
  induction l with
  | nil =>
    intro e _ h
    simp [Field.getFields] at h
  | cons p rest ih =>
    intro e hmem h
    obtain ⟨nm, f⟩ := p
    rw [Field.getFields] at h
    cases hf : Field.get f with
    | error e2 =>
      rw [hf] at h
      have hattr : e2.isAttr = true := hmem (nm, f) (by simp) e2 hf
      simp only [Except.error.injEq] at h
      refine ⟨nm, e2, hattr, ?_⟩
      rw [← h]
      simp [wrapField, hattr]
    | ok v =>
      rw [hf] at h
      cases hrest : Field.getFields tn rest with
      | ok outs => rw [hrest] at h; simp at h
      | error e3 =>
        rw [hrest] at h
        simp only [Except.error.injEq] at h
        obtain ⟨nm2, e2, hattr, hshape⟩ := ih e3 (fun q hq => hmem q (by simp [hq])) hrest
        exact ⟨nm2, e2, hattr, h ▸ hshape⟩

theorem sizeOf_bool (b : Bool) : sizeOf b = 1 := by
  cases b <;> rfl

/-- A pair in an association list bounds the size of its second component. -/
theorem sizeOf_snd_lt_of_mem {l : List (String × Field)} {p : String × Field}
    (hp : p ∈ l) : sizeOf p.snd < sizeOf l := by
  have h1 := List.sizeOf_lt_of_mem hp
  cases p with
  | mk nm g =>
    simp only [Prod.mk.sizeOf_spec] at h1
    simp only []
    omega

/-- Every error raised by get() is an AttributeError: the required-unset
errors are, and the wrapping handlers re-raise AttributeError instances. -/
theorem get_err_isAttr (f : Field) : ∀ (e : Err), Field.get f = .error e → e.isAttr = true := by
  match f with
  | .var ty d o w =>
    intro e h
    rw [Field.get] at h
    split at h
    · split at h
      · simp only [Except.error.injEq] at h
        subst h
        rfl
      · simp at h
    · simp at h
  | .arr elem d o vs =>
    intro e h
    have hmem : ∀ g ∈ vs.getD [], ∀ e2, Field.get g = .error e2 → e2.isAttr = true := by
      intro g hg
      have hsz : sizeOf g < sizeOf (Field.arr elem d o vs) := by
        match vs with
        | none => simp at hg
        | some l =>
          have h2 := List.sizeOf_lt_of_mem (by simpa using hg : g ∈ l)
          simp only [Field.arr.sizeOf_spec, Option.some.sizeOf_spec]
          omega
      exact get_err_isAttr g
    match vs, hmem, h with
    | none, _, h =>
      rw [Field.get] at h
      split at h
      · simp only [Except.error.injEq] at h
        subst h
        rfl
      · simp at h
    | some l, hmem, h =>
      rw [Field.get] at h
      cases hl : Field.getList l 0 with
      | ok outs => rw [hl] at h; simp at h
      | error e3 =>
        rw [hl] at h
        simp only [Except.error.injEq] at h
        obtain ⟨j, e2, hattr, hshape⟩ := getList_err_shape l 0 e3 (by simpa using hmem) hl
        subst h
        rw [hshape]
        rfl
  | .struct tn sch d o flds =>
    intro e h
    have hmem : ∀ p ∈ flds, ∀ e2, Field.get p.snd = .error e2 → e2.isAttr = true := by
      intro p hp
      have hsz : sizeOf p.snd < sizeOf (Field.struct tn sch d o flds) := by
        have h2 := sizeOf_snd_lt_of_mem hp
        simp only [Field.struct.sizeOf_spec]
        omega
      exact get_err_isAttr p.snd
    rw [Field.get] at h
    split at h
    · split at h
      · simp only [Except.error.injEq] at h
        subst h
        rfl
      · simp at h
    · cases hl : Field.getFields tn flds with
      | ok outs => rw [hl] at h; simp at h
      | error e3 =>
        rw [hl] at h
        simp only [Except.error.injEq] at h
        obtain ⟨nm, e2, hattr, hshape⟩ := getFields_err_shape tn flds e3 hmem hl
        subst h
        rw [hshape]
        rfl
termination_by sizeOf f
decreasing_by
  all_goals simp_wf
  all_goals (try simp only [Field.struct.sizeOf_spec, Field.arr.sizeOf_spec, Option.some.sizeOf_spec, sizeOf_bool] at hsz)
  all_goals omega

/-- C1 counterexample: Array(int, default=[1,2,3]) constructs successfully,
storing the validated default, yet get() on the never-set array raises the
required-unset error instead of returning the default [1,2,3]. -/
theorem c1_counterexample :
    arrayInit (.var .int .vnone false .vnone) (.vlist [.vint 1, .vint 2, .vint 3]) false
      = .ok (.arr (.var .int .vnone false .vnone) (.vlist [.vint 1, .vint 2, .vint 3]) false none)
    ∧ Field.get (.arr (.var .int .vnone false .vnone) (.vlist [.vint 1, .vint 2, .vint 3]) false none)
      = .error (.requiredNone "array") := by
  constructor
  · simp [arrayInit, Field.validate, Field.validateElems, Field.validateList, Value.isNone,
      isinst, wrapIdx, iterElems]
  · simp [Field.get]

/-- C1 (amended): get() fails with the required-unset error exactly when the
field is non-optional and currently holds no value; the configured default
is not consulted by get() (an optional unset field reads as None rather
than as its default; the default only materializes through set(None) or
validate(None)). -/
theorem c1_get_required_iff (f : Field) :
    ((∃ k, Field.get f = .error (.requiredNone k)) ↔
      (f.optionalOf = false ∧ f.unset = true))
    ∧ (f.optionalOf = true → f.unset = true → Field.get f = .ok .vnone) := by
  match f with
  | .var ty d o w =>
    cases hw : w.isNone <;> cases o <;>
      simp_all [Field.get, Field.optionalOf, Field.unset]
  | .arr elem d o vs =>
    match vs with
    | none =>
      cases o <;> simp [Field.get, Field.optionalOf, Field.unset, Option.isNone]
    | some l =>
      have hmem : ∀ g ∈ l, ∀ e2, Field.get g = .error e2 → e2.isAttr = true :=
        fun g _ => get_err_isAttr g
      cases hl : Field.getList l 0 with
      | ok outs =>
        simp [Field.get, hl, Field.optionalOf, Field.unset, Option.isNone]
      | error e3 =>
        obtain ⟨j, e2, hattr, hshape⟩ := getList_err_shape l 0 e3 hmem hl
        simp [Field.get, hl, hshape, Field.optionalOf, Field.unset, Option.isNone]
  | .struct tn sch d o flds =>
    match flds with
    | [] =>
      cases o <;> simp [Field.get, Field.optionalOf, Field.unset]
    | p :: rest =>
      have hmem : ∀ q ∈ p :: rest, ∀ e2, Field.get q.snd = .error e2 → e2.isAttr = true :=
        fun q _ => get_err_isAttr q.snd
      cases hl : Field.getFields tn (p :: rest) with
      | ok outs =>
        simp [Field.get, hl, Field.optionalOf, Field.unset]
      | error e3 =>
        obtain ⟨nm, e2, hattr, hshape⟩ := getFields_err_shape tn (p :: rest) e3 hmem hl
        simp [Field.get, hl, hshape, Field.optionalOf, Field.unset]

/-- C1 witness: the amended theorem applied to a required variable holding no
value but carrying the default 5: get() fails with the required-unset error. -/
theorem c1_witness :
    Field.get (.var .int (.vint 5) false .vnone) = .error (.requiredNone "variable") := by
  have h := (c1_get_required_iff (.var .int (.vint 5) false .vnone)).1
  have h2 : (∃ k, Field.get (.var .int (.vint 5) false .vnone) = .error (.requiredNone k)) :=
    h.mpr (by constructor <;> rfl)
  obtain ⟨k, hk⟩ := h2
  have hkv : k = "variable" := by
    have := (c1_get_required_iff (.var .int (.vint 5) false .vnone)).1
    rw [Field.get] at hk
    simp [Value.isNone] at hk
    exact hk.symm
  rw [hk, hkv]

/-- C3: the deletability condition in Struct.\_\_delete\_\_ is inverted with
respect to the deletable property of \_Field and to the error message text:
deleting an optional field (deletable per \_Field.deletable) raises the
cant-delete error, while deleting a required default-less field attempts
set(None), which raises the required-None error, so deletion never
succeeds.  Evaluated on a struct with an optional field a and a required
default-less field b. -/
theorem c3_delete_always_fails :
    (Field.deletable (.var .int .vnone true .vnone) = true
      ∧ Field.delete
          (.struct "S" [("a", .var .int .vnone true .vnone), ("b", .var .int .vnone false .vnone)] .vnone false
            [("a", .var .int .vnone true .vnone), ("b", .var .int .vnone false .vnone)]) "a"
        = (.struct "S" [("a", .var .int .vnone true .vnone), ("b", .var .int .vnone false .vnone)] .vnone false
            [("a", .var .int .vnone true .vnone), ("b", .var .int .vnone false .vnone)],
           some (.cantDelete "a" "S")))
    ∧ (Field.deletable (.var .int .vnone false .vnone) = false
      ∧ Field.delete
          (.struct "S" [("a", .var .int .vnone true .vnone), ("b", .var .int .vnone false .vnone)] .vnone false
            [("a", .var .int .vnone true .vnone), ("b", .var .int .vnone false .vnone)]) "b"
        = (.struct "S" [("a", .var .int .vnone true .vnone), ("b", .var .int .vnone false .vnone)] .vnone false
            [("a", .var .int .vnone true .vnone), ("b", .var .int .vnone false .vnone)],
           some (.requiredNone "variable"))) := by
  refine ⟨⟨rfl, ?_⟩, ⟨rfl, ?_⟩⟩
  · simp [Field.delete, List.lookup, Field.optionalOf, Field.dfltOf, Value.isNone]
  · simp [Field.delete, List.lookup, Field.optionalOf, Field.dfltOf, Value.isNone,
      Field.set, Field.validate, replaceKey]

/-- Names are preserved by the field-setting loop of Struct.set. -/
theorem setFields_keyNames (tn : String) (kvs : List (String × Value)) :
    ∀ (l : List (String × Field)), keyNames (Field.setFields tn kvs l).fst = keyNames l := by
  intro l
  induction l with
  | nil => simp [Field.setFields, keyNames]
  | cons p rest ih =>
    obtain ⟨nm, t⟩ := p
    rw [Field.setFields]
    cases hset : Field.set t (dictGet kvs nm) with
    | mk f eopt =>
      match eopt with
      | none =>
        cases hrest : Field.setFields tn kvs rest with
        | mk out e => simp_all [keyNames]
      | some e => simp_all [keyNames]

/-- C4 counterexample: constructing a non-optional struct with a one-field
schema leaves the instance field map empty: the schema name is not a member
and the length is 0, so no deep clone of the schema exists before set(). -/
theorem c4_counterexample :
    structInit "S" [("a", .var .int .vnone false .vnone)] .vnone false
      = .ok (.struct "S" [("a", .var .int .vnone false .vnone)] .vnone false [])
    ∧ Field.containsKey (.struct "S" [("a", .var .int .vnone false .vnone)] .vnone false []) "a" = false
    ∧ Field.lenStruct (.struct "S" [("a", .var .int .vnone false .vnone)] .vnone false []) = 0 := by
  refine ⟨?_, rfl, rfl⟩
  simp [structInit, Value.isNone]

/-- C4 (amended): construction leaves the instance field map empty whatever
the optionality; the deep clone of the schema is made lazily by the first
set() call with a mapping value, after which the instance field names are
exactly the schema names. -/
theorem c4_init_lazy_clone (tn : String) (sch : List (String × Field)) (dflt : Value) (o : Bool) :
    (∀ s, structInit tn sch dflt o = .ok s → ∃ d2, s = .struct tn sch d2 o [])
    ∧ (∀ (d2 : Value) (o2 : Bool) (kvs : List (String × Value)) (s2 : Field) (e2 : Option Err),
        Field.set (.struct tn sch d2 o2 []) (.vdict kvs) = (s2, e2) →
        ∃ out, s2 = .struct tn sch d2 o2 out ∧ keyNames out = keyNames sch) := by
  constructor
  · intro s h
    rw [structInit] at h
    split at h
    · exact ⟨.vnone, by simp_all⟩
    · cases hval : Field.validate (.struct tn sch .vnone o []) dflt with
      | ok d2 => rw [hval] at h; exact ⟨d2, by simp_all⟩
      | error e => rw [hval] at h; simp at h
  · intro d2 o2 kvs s2 e2 h
    rw [Field.set] at h
    simp only [Value.isNone, Bool.false_eq_true, if_false, List.isEmpty_nil, if_true] at h
    rw [Field.setStructBody] at h
    cases hfk : findUnknown kvs (keyNames sch) with
    | some bad =>
      rw [hfk] at h
      exact ⟨sch, by simp_all, rfl⟩
    | none =>
      rw [hfk] at h
      cases hsf : Field.setFields tn kvs sch with
      | mk out e =>
        rw [hsf] at h
        refine ⟨out, by simp_all, ?_⟩
        have := setFields_keyNames tn kvs sch
        rw [hsf] at this
        exact this

/-- C4 witness: the amended theorem applied to the one-field schema: the
constructed instance is the empty-field-map struct. -/
theorem c4_witness :
    ∃ d2, (.struct "S" [("a", .var .int .vnone false .vnone)] .vnone false [] : Field)
      = .struct "S" [("a", .var .int .vnone false .vnone)] d2 false [] := by
  refine (c4_init_lazy_clone "S" [("a", .var .int .vnone false .vnone)] .vnone false).1
    (.struct "S" [("a", .var .int .vnone false .vnone)] .vnone false []) ?_
  simp [structInit, Value.isNone]

/-- C5 counterexample: Variable(int).validate(True) succeeds and returns True
unchanged (bool is a subclass of int, so isinstance passes) although the
type of True is bool, not exactly int. -/
theorem c5_counterexample :
    Field.validate (.var .int .vnone false .vnone) (.vbool true) = .ok (.vbool true)
    ∧ exactType (.vbool true) .int = false := by
  constructor
  · simp [Field.validate, Value.isNone, isinst]
  · rfl

/-- C5 (amended): for every non-null value, scalar validate succeeds
returning the value unchanged exactly when the value is an instance of the
declared type in the Python sense (its type is the declared type or a
subclass of it, so a bool is accepted where int is declared), and otherwise
fails with the type-mismatch error naming expected and actual types; there
is still no int/float widening in either direction. -/
theorem c5_validate_isinstance (ty : PTy) (d : Value) (o : Bool) (st : Value) (v : Value)
    (hv : v ≠ .vnone) :
    (Field.validate (.var ty d o st) v = .ok v ↔ isinst v ty = true)
    ∧ (isinst v ty = false →
        Field.validate (.var ty d o st) v = .error (.typeMismatch ty.name v.typeName))
    ∧ (∀ n, isinst (.vint n) .float = false)
    ∧ (∀ x, isinst (.vfloat x) .int = false) := by
  have hnone : v.isNone = false := (isNone_false_iff v).mpr hv
  refine ⟨?_, ?_, fun n => rfl, fun x => rfl⟩
  · rw [Field.validate, hnone]
    cases hi : isinst v ty <;> simp
  · intro hi
    rw [Field.validate, hnone, hi]
    simp

/-- C5 witness: the amended theorem applied to Variable(int) and the value 7. -/
theorem c5_witness :
    (.vint 7 : Value) ≠ .vnone
    ∧ (Field.validate (.var .int .vnone false .vnone) (.vint 7) = .ok (.vint 7) ↔
        isinst (.vint 7) .int = true) :=
  ⟨by simp, (c5_validate_isinstance .int .vnone false .vnone (.vint 7) (by simp)).1⟩

/-- C10: after any successful set() on an array, the membership test of any
plain value is False: the stored elements are Field wrapper objects and
Python == between a plain value and a wrapper falls back to identity. -/
theorem c10_contains_plain_false (a s2 : Field) (xs : List Value) (v : Value)
    (h : Field.set a (.vlist xs) = (s2, none)) :
    Field.containsElem s2 v = .ok false := by
  match a with
  | .var ty d o w =>
    rw [Field.set] at h
    cases hval : Field.validate (.var ty d o w) (.vlist xs) with
    | ok w2 => simp_all [Field.validate, Value.isNone, isinst]
    | error e => rw [hval] at h; simp at h
  | .arr elem d o vs =>
    rw [Field.set] at h
    simp only [Value.isNone, Bool.false_eq_true, if_false] at h
    rw [Field.setElems] at h
    simp only [iterElems] at h
    cases hsl : Field.setList elem xs 0 with
    | ok out =>
      rw [hsl] at h
      simp only [Prod.mk.injEq] at h
      rw [← h.1]
      simp [Field.containsElem, pyEqValueField]
    | error e => rw [hsl] at h; simp at h
  | .struct tn sch d o flds =>
    rw [Field.set] at h
    simp only [Value.isNone, Bool.false_eq_true, if_false] at h
    simp [Field.setStructBody] at h

/-- The element loop of Array.set fails exactly at the first failing element,
reporting its error through the AttributeError-only wrapping. -/
theorem setList_first_err (elem : Field) :
    ∀ (xs : List Value) (k i : Nat) (f2 : Field) (e : Err),
      i < xs.length →
      (∀ j, j < i → (Field.set elem (xs.getD j .vnone)).snd = none) →
      Field.set elem (xs.getD i .vnone) = (f2, some e) →
      Field.setList elem xs k = .error (wrapIdx "setting" (k + i) e) := by
  intro xs
  induction xs with
  | nil =>
    intro k i f2 e hlen
    simp at hlen
  | cons x rest ih =>
    intro k i f2 e hlen hpre hfail
    match i with
    | 0 =>
      rw [Field.setList]
      simp only [List.getD_cons_zero] at hfail
      rw [hfail]
      simp
    | i2 + 1 =>
      rw [Field.setList]
      have h0 : (Field.set elem x).snd = none := by
        have h1 := hpre 0 (by omega)
        simpa using h1
      cases hx : Field.set elem x with
      | mk f0 e0 =>
        rw [hx] at h0
        simp only at h0
        subst h0
        have hrec := ih (k + 1) i2 f2 e (by simpa using hlen)
          (fun j hj => by simpa using hpre (j + 1) (by omega))
          (by simpa using hfail)
        rw [hrec]
        have : k + 1 + i2 = k + (i2 + 1) := by omega
        rw [this]

/-- The element loop of Array.validate fails exactly at the first failing
element, reporting its error through the AttributeError-only wrapping. -/
theorem validateList_first_err (elem : Field) :
    ∀ (xs : List Value) (k i : Nat) (e : Err),
      i < xs.length →
      (∀ j, j < i → ∃ w, Field.validate elem (xs.getD j .vnone) = .ok w) →
      Field.validate elem (xs.getD i .vnone) = .error e →
      Field.validateList elem xs k = .error (wrapIdx "validating" (k + i) e) := by
  intro xs
  induction xs with
  | nil =>
    intro k i e hlen
    simp at hlen
  | cons x rest ih =>
    intro k i e hlen hpre hfail
    match i with
    | 0 =>
      rw [Field.validateList]
      simp only [List.getD_cons_zero] at hfail
      rw [hfail]
      simp
    | i2 + 1 =>
      rw [Field.validateList]
      obtain ⟨w, hw⟩ := hpre 0 (by omega)
      simp only [List.getD_cons_zero] at hw
      cases hx : Field.validate elem x with
      | error e2 => rw [hx] at hw; simp at hw
      | ok w2 =>
        have hrec := ih (k + 1) i2 e (by simpa using hlen)
          (fun j hj => by simpa using hpre (j + 1) (by omega))
          (by simpa using hfail)
        rw [hrec]
        have heq : k + 1 + i2 = k + (i2 + 1) := by omega
        rw [heq]

/-- C2 counterexample: both Array(int).set(["x"]) and
Array(int).validate(["x"]) fail with the bare type-mismatch ValueError:
the element handlers catch AttributeError only, so the error does not
identify the failing index 0. -/
theorem c2_counterexample :
    Field.set (.arr (.var .int .vnone false .vnone) .vnone false none) (.vlist [.vstr "x"])
      = (.arr (.var .int .vnone false .vnone) .vnone false none,
         some (.typeMismatch "int" "str"))
    ∧ Field.validate (.arr (.var .int .vnone false .vnone) .vnone false none)
        (.vlist [.vstr "x"])
      = .error (.typeMismatch "int" "str") := by
  constructor
  · simp [Field.set, Field.setElems, Field.setList, Field.validate, Value.isNone, isinst,
      wrapIdx, Err.isAttr, PTy.name, Value.typeName, iterElems]
  · simp [Field.validate, Field.validateElems, Field.validateList, Value.isNone, isinst,
      wrapIdx, Err.isAttr, PTy.name, Value.typeName, iterElems]

/-- C2 (amended): when the first failing element of the input sequence is at
0-based index i, array set() fails (leaving the old elements) and array
validate() fails, and in both loops the element error carries the index
tag only when it is an AttributeError (requiredness failure); a ValueError
(type mismatch) escapes the except-AttributeError handler and propagates
unchanged without the index tag. -/
theorem c2_first_failure_index (elem : Field) (d : Value) (o : Bool) (vs : Option (List Field))
    (xs : List Value) (i : Nat) (e : Err)
    (hlen : i < xs.length) :
    ((∀ j, j < i → (Field.set elem (xs.getD j .vnone)).snd = none) →
      ∀ f2, Field.set elem (xs.getD i .vnone) = (f2, some e) →
      Field.set (.arr elem d o vs) (.vlist xs)
        = (.arr elem d o vs, some (wrapIdx "setting" i e)))
    ∧ ((∀ j, j < i → ∃ w, Field.validate elem (xs.getD j .vnone) = .ok w) →
      Field.validate elem (xs.getD i .vnone) = .error e →
      Field.validate (.arr elem d o vs) (.vlist xs) = .error (wrapIdx "validating" i e))
    ∧ (∀ op, e.isAttr = true → wrapIdx op i e = .atIndex op i e)
    ∧ (∀ op, e.isAttr = false → wrapIdx op i e = e) := by
  refine ⟨?_, ?_, fun op ha => by simp [wrapIdx, ha], fun op ha => by simp [wrapIdx, ha]⟩
  · intro hpre f2 hfail
    have hsl := setList_first_err elem xs 0 i f2 e hlen hpre hfail
    rw [Nat.zero_add] at hsl
    rw [Field.set]
    simp only [Value.isNone, Bool.false_eq_true, if_false]
    rw [Field.setElems]
    simp only [iterElems]
    rw [hsl]
  · intro hpre hfail
    have hvl := validateList_first_err elem xs 0 i e hlen hpre hfail
    rw [Nat.zero_add] at hvl
    rw [Field.validate]
    simp only [Value.isNone, Bool.false_eq_true, if_false]
    rw [Field.validateElems]
    simp only [iterElems]
    rw [hvl]

/-- C2 witness: the amended theorem applied to Array(int) and the sequence
[1, None]: the requiredness failure of element 1 is index-tagged in both
set() and validate(). -/
theorem c2_witness :
    Field.set (.arr (.var .int .vnone false .vnone) .vnone false none)
        (.vlist [.vint 1, .vnone])
      = (.arr (.var .int .vnone false .vnone) .vnone false none,
         some (wrapIdx "setting" 1 (.requiredNone "variable")))
    ∧ Field.validate (.arr (.var .int .vnone false .vnone) .vnone false none)
        (.vlist [.vint 1, .vnone])
      = .error (wrapIdx "validating" 1 (.requiredNone "variable"))
    ∧ wrapIdx "setting" 1 (.requiredNone "variable")
      = .atIndex "setting" 1 (.requiredNone "variable") := by
  have h := c2_first_failure_index (.var .int .vnone false .vnone) .vnone false none
    [.vint 1, .vnone] 1 (.requiredNone "variable") (by decide)
  refine ⟨?_, ?_, h.2.2.1 "setting" rfl⟩
  · exact h.1
      (by
        intro j hj
        match j, hj with
        | 0, _ => simp [Field.set, Field.validate, Value.isNone, isinst])
      (.var .int .vnone false .vnone)
      (by simp [Field.set, Field.validate, Value.isNone])
  · exact h.2.1
      (by
        intro j hj
        match j, hj with
        | 0, _ => exact ⟨.vint 1, by simp [Field.validate, Value.isNone, isinst]⟩)
      (by simp [Field.validate, Value.isNone])

/-- Setting None on a required default-less field of any kind raises the
required-None AttributeError of its kind and leaves the state unchanged. -/
theorem set_none_required (t : Field) (ho : t.optionalOf = false) (hd : t.dfltOf = .vnone) :
    Field.set t .vnone = (t, some (.requiredNone t.kindName)) := by
  match t with
  | .var ty d o w =>
    simp only [Field.optionalOf] at ho
    simp only [Field.dfltOf] at hd
    subst ho; subst hd
    rw [Field.set]
    rw [Field.validate]
    simp [Value.isNone, Field.kindName]
  | .arr elem d o vs =>
    simp only [Field.optionalOf] at ho
    simp only [Field.dfltOf] at hd
    subst ho; subst hd
    rw [Field.set]
    simp [Value.isNone, Field.kindName]
  | .struct tn sch d o flds =>
    simp only [Field.optionalOf] at ho
    simp only [Field.dfltOf] at hd
    subst ho; subst hd
    rw [Field.set]
    simp [Value.isNone, Field.kindName]

/-- When every input key is a declared name, the unknown-key scan passes. -/
theorem findUnknown_none (kvs : List (String × Value)) (ns : List String)
    (h : ∀ k ∈ keyNames kvs, k ∈ ns) :
    findUnknown kvs ns = none := by
  rw [findUnknown]
  rw [List.find?_eq_none]
  intro k hk
  have := h k hk
  simp [this]

/-- An omitted entry reads as None through value.get(name, None). -/
theorem dictGet_not_mem (kvs : List (String × Value)) (nm : String)
    (h : nm ∉ keyNames kvs) : dictGet kvs nm = .vnone := by
  induction kvs with
  | nil => rfl
  | cons p rest ih =>
    obtain ⟨k, v⟩ := p
    simp only [keyNames, List.map_cons, List.mem_cons] at h
    push_neg at h
    have hb : (nm == k) = false := by
      simp [h.1]
    have ih2 := ih (by simp only [keyNames]; exact h.2)
    simp only [dictGet, List.lookup, hb] at ih2 ⊢
    exact ih2

/-- When every field of the loop sets successfully, Struct.set succeeds. -/
theorem setFields_all_ok (tn : String) (kvs : List (String × Value)) :
    ∀ (sch : List (String × Field)),
      (∀ p ∈ sch, (Field.set p.snd (dictGet kvs p.fst)).snd = none) →
      (Field.setFields tn kvs sch).snd = none := by
  intro sch
  induction sch with
  | nil => intro _; simp [Field.setFields]
  | cons p rest ih =>
    intro hok
    obtain ⟨nm, t⟩ := p
    rw [Field.setFields]
    have h0 := hok (nm, t) (by simp)
    cases hst : Field.set t (dictGet kvs nm) with
    | mk f0 e0 =>
      rw [hst] at h0
      simp only at h0
      subst h0
      have hrest := ih (fun q hq => hok q (by simp [hq]))
      cases hr : Field.setFields tn kvs rest with
      | mk out e => simp_all

/-- When the single field named n is required, default-less and omitted while
every other field sets successfully, the field loop fails with the
required-None error of n wrapped with the name n. -/
theorem setFields_omitted_required (tn : String) (kvs : List (String × Value)) :
    ∀ (sch : List (String × Field)) (n : String) (tf : Field),
      (n, tf) ∈ sch →
      tf.optionalOf = false → tf.dfltOf = .vnone →
      n ∉ keyNames kvs →
      (∀ p ∈ sch, p.fst ≠ n → (Field.set p.snd (dictGet kvs p.fst)).snd = none) →
      (keyNames sch).Nodup →
      (Field.setFields tn kvs sch).snd
        = some (.atField "setting" n tn (.requiredNone tf.kindName)) := by
  intro sch
  induction sch with
  | nil => intro n tf hmem; simp at hmem
  | cons p rest ih =>
    intro n tf hmem ho hd hnot hok hnodup
    obtain ⟨nm, t⟩ := p
    by_cases hn : nm = n
    · subst hn
      have ht : t = tf := by
        rcases List.mem_cons.mp hmem with hh | hh
        · injection hh with h1 h2
          exact h2.symm
        · exfalso
          have hmemk : nm ∈ keyNames rest := by
            simp only [keyNames, List.mem_map]
            exact ⟨(nm, tf), hh, rfl⟩
          have hno : ¬ nm ∈ keyNames rest := by
            simp only [keyNames, List.map_cons, List.nodup_cons] at hnodup
            exact hnodup.1
          exact hno hmemk
      subst ht
      rw [Field.setFields]
      rw [dictGet_not_mem kvs nm hnot]
      rw [set_none_required t ho hd]
      simp [wrapField, Err.isAttr]
    · have hsucc := hok (nm, t) (by simp) hn
      rw [Field.setFields]
      cases hst : Field.set t (dictGet kvs nm) with
      | mk f0 e0 =>
        rw [hst] at hsucc
        simp only at hsucc
        subst hsucc
        have hmem2 : (n, tf) ∈ rest := by
          rcases List.mem_cons.mp hmem with hh | hh
          · exact absurd (congrArg Prod.fst hh).symm hn
          · exact hh
        have hrec := ih n tf hmem2 ho hd hnot
          (fun q hq hne => hok q (by simp [hq]) hne)
          (by simp [keyNames] at hnodup ⊢; exact hnodup.2)
        cases hr : Field.setFields tn kvs rest with
        | mk out e => simp_all

/-- C8: on a freshly constructed composite, set() with a mapping whose keys
are all declared invokes every schema field through the schema clone:
omitting the required default-less field n (all other fields setting
successfully) fails with the required-None error tagged with n, while a
mapping on which every schema field sets successfully makes set() succeed. -/
theorem c8_struct_set_fields (tn : String) (sch : List (String × Field)) (d : Value) (o : Bool)
    (kvs : List (String × Value))
    (hkeys : ∀ k ∈ keyNames kvs, k ∈ keyNames sch)
    (hnodup : (keyNames sch).Nodup) :
    (∀ (n : String) (tf : Field),
        (n, tf) ∈ sch → tf.optionalOf = false → tf.dfltOf = .vnone → n ∉ keyNames kvs →
        (∀ p ∈ sch, p.fst ≠ n → (Field.set p.snd (dictGet kvs p.fst)).snd = none) →
        (Field.set (.struct tn sch d o []) (.vdict kvs)).snd
          = some (.atField "setting" n tn (.requiredNone tf.kindName)))
    ∧ ((∀ p ∈ sch, (Field.set p.snd (dictGet kvs p.fst)).snd = none) →
        (Field.set (.struct tn sch d o []) (.vdict kvs)).snd = none) := by
  have hbody : ∀ (res : List (String × Field) × Option Err),
      Field.setFields tn kvs sch = res →
      Field.set (.struct tn sch d o []) (.vdict kvs) = (.struct tn sch d o res.fst, res.snd) := by
    intro res hres
    rw [Field.set]
    simp only [Value.isNone, Bool.false_eq_true, if_false, List.isEmpty_nil, if_true]
    rw [Field.setStructBody]
    rw [findUnknown_none kvs (keyNames sch) hkeys]
    rw [hres]
  constructor
  · intro n tf hmem ho hd hnot hok
    have h1 := setFields_omitted_required tn kvs sch n tf hmem ho hd hnot hok hnodup
    cases hres : Field.setFields tn kvs sch with
    | mk out e =>
      rw [hbody (out, e) hres]
      rw [hres] at h1
      exact h1
  · intro hok
    have h1 := setFields_all_ok tn kvs sch hok
    cases hres : Field.setFields tn kvs sch with
    | mk out e =>
      rw [hbody (out, e) hres]
      rw [hres] at h1
      exact h1

/-- C8 witness: the scenario with fields field1:int, field2:str,
field3:array of int, all required without defaults: omitting field3 fails
with the required-None error naming field3. -/
theorem c8_witness :
    (Field.set
      (.struct "TestStruct"
        [("field1", .var .int .vnone false .vnone),
         ("field2", .var .str .vnone false .vnone),
         ("field3", .arr (.var .int .vnone false .vnone) .vnone false none)]
        .vnone false [])
      (.vdict [("field1", .vint 10), ("field2", .vstr "test")])).snd
      = some (.atField "setting" "field3" "TestStruct" (.requiredNone "array")) := by
  have h := (c8_struct_set_fields "TestStruct"
    [("field1", .var .int .vnone false .vnone),
     ("field2", .var .str .vnone false .vnone),
     ("field3", .arr (.var .int .vnone false .vnone) .vnone false none)]
    .vnone false
    [("field1", .vint 10), ("field2", .vstr "test")]
    (by intro k hk; simp [keyNames] at hk ⊢; rcases hk with h | h <;> simp [h])
    (by simp [keyNames])).1
    "field3" (.arr (.var .int .vnone false .vnone) .vnone false none)
    (by simp) rfl rfl
    (by simp [keyNames])
    (by
      intro p hp hne
      simp at hp
      rcases hp with h | h | h
      · subst h
        simp [dictGet, List.lookup, Field.set, Field.validate, Value.isNone, isinst]
      · subst h
        simp [dictGet, List.lookup, Field.set, Field.validate, Value.isNone, isinst]
      · subst h
        simp at hne)
  simpa [Field.kindName] using h

theorem sameSpec_refl (t : Field) : sameSpec t t := by
  cases t <;> simp [sameSpec]

theorem conformSchema_mem :
    ∀ (sch : List (String × Field)), conformSchema sch → ∀ p ∈ sch, conform p.snd := by
  intro sch
  induction sch with
  | nil => intro _ p hp; simp at hp
  | cons q rest ih =>
    intro hc p hp
    obtain ⟨nm, t⟩ := q
    rw [conformSchema] at hc
    rcases List.mem_cons.mp hp with h | h
    · subst h; exact hc.1
    · exact ih hc.2 p h

theorem conformSchema_conformFields :
    ∀ (sch : List (String × Field)), conformSchema sch → conformFields sch sch := by
  intro sch
  induction sch with
  | nil => intro _; rw [conformFields]; trivial
  | cons q rest ih =>
    intro hc
    obtain ⟨nm, t⟩ := q
    rw [conformSchema] at hc
    rw [conformFields]
    exact ⟨rfl, sameSpec_refl t, hc.1, ih hc.2⟩

theorem conformFields_keyNames :
    ∀ (flds sch : List (String × Field)),
      conformFields flds sch → keyNames flds = keyNames sch := by
  intro flds
  induction flds with
  | nil =>
    intro sch hc
    match sch with
    | [] => rfl
    | q :: rest => simp [conformFields] at hc
  | cons p rest ih =>
    intro sch hc
    obtain ⟨nm, g⟩ := p
    match sch with
    | [] => simp [conformFields] at hc
    | (nm2, t) :: ts =>
      rw [conformFields] at hc
      obtain ⟨h1, _, _, h4⟩ := hc
      simp only [keyNames, List.map_cons]
      rw [h1]
      have := ih ts h4
      simp only [keyNames] at this
      rw [this]

theorem conformFields_mem :
    ∀ (flds sch : List (String × Field)),
      conformFields flds sch → ∀ p ∈ flds, conform p.snd := by
  intro flds
  induction flds with
  | nil => intro sch _ p hp; simp at hp
  | cons q rest ih =>
    intro sch hc p hp
    obtain ⟨nm, g⟩ := q
    match sch with
    | [] => simp [conformFields] at hc
    | (nm2, t) :: ts =>
      rw [conformFields] at hc
      rcases List.mem_cons.mp hp with h | h
      · subst h; exact hc.2.2.1
      · exact ih ts hc.2.2.2 p h

theorem lookup_mem :
    ∀ (l : List (String × Field)) (k : String) (g : Field),
      l.lookup k = some g → (k, g) ∈ l := by
  intro l
  induction l with
  | nil => intro k g h; simp [List.lookup] at h
  | cons p rest ih =>
    intro k g h
    obtain ⟨k2, f⟩ := p
    rw [List.lookup] at h
    cases hb : (k == k2) with
    | true =>
      rw [hb] at h
      simp only [Option.some.injEq] at h
      have hk : k = k2 := by simpa using hb
      subst hk
      subst h
      simp
    | false =>
      rw [hb] at h
      exact List.mem_cons_of_mem _ (ih k g h)

theorem lookup_replaceKey :
    ∀ (l : List (String × Field)) (k : String) (g c : Field),
      l.lookup k = some g → (replaceKey l k c).lookup k = some c := by
  intro l
  induction l with
  | nil => intro k g c h; simp [List.lookup] at h
  | cons p rest ih =>
    intro k g c h
    obtain ⟨k2, f⟩ := p
    rw [List.lookup] at h
    by_cases hk : k2 = k
    · subst hk
      rw [replaceKey]
      simp [List.lookup]
    · have hb : (k == k2) = false := by
        simp
        exact fun hh => hk hh.symm
      rw [hb] at h
      rw [replaceKey]
      simp only [if_neg hk]
      rw [List.lookup, hb]
      exact ih k g c h

theorem validateElems_ok_shape (elem : Field) (v w : Value)
    (h : Field.validateElems elem v = .ok w) : ∃ outs, w = .vlist outs := by
  rw [Field.validateElems] at h
  split at h
  · split at h
    · simp only [Except.ok.injEq] at h
      exact ⟨_, h.symm⟩
    · simp at h
  · simp at h

theorem validateFields_keyNames (tn : String) (kvs : List (String × Value)) :
    ∀ (sch : List (String × Field)) (outs : List (String × Value)),
      Field.validateFields tn sch kvs = .ok outs → keyNames outs = keyNames sch := by
  intro sch
  induction sch with
  | nil =>
    intro outs h
    simp only [Field.validateFields, Except.ok.injEq] at h
    subst h
    rfl
  | cons q rest ih =>
    intro outs h
    obtain ⟨nm, t⟩ := q
    rw [Field.validateFields] at h
    cases hv : Field.validate t (dictGet kvs nm) with
    | error e => rw [hv] at h; simp at h
    | ok w =>
      rw [hv] at h
      cases hr : Field.validateFields tn rest kvs with
      | error e => rw [hr] at h; simp at h
      | ok outs2 =>
        rw [hr] at h
        simp only [Except.ok.injEq] at h
        subst h
        simp only [keyNames, List.map_cons]
        have := ih outs2 hr
        simp only [keyNames] at this
        rw [this]

theorem dictGet_self_of_nodup :
    ∀ (kvs : List (String × Value)), (keyNames kvs).Nodup →
      ∀ p ∈ kvs, dictGet kvs p.fst = p.snd := by
  intro kvs
  induction kvs with
  | nil => intro _ p hp; simp at hp
  | cons q rest ih =>
    intro hnd p hp
    obtain ⟨k, v⟩ := q
    simp only [keyNames, List.map_cons, List.nodup_cons] at hnd
    rcases List.mem_cons.mp hp with h | h
    · subst h
      simp [dictGet, List.lookup]
    · have hne : p.fst ≠ k := by
        intro heq
        apply hnd.1
        rw [← heq]
        simp only [List.mem_map]
        exact ⟨p, h, rfl⟩
      have hb : (p.fst == k) = false := by simp [hne]
      have := ih hnd.2 p h
      simp only [dictGet, List.lookup, hb] at this ⊢
      exact this

/-- validate reads only the declaration of the receiver, never its stored
instance state: fields sharing a declaration validate identically. -/
theorem validate_ignores_state (f g : Field) (v : Value)
    (h : sameSpec f g) : Field.validate f v = Field.validate g v := by
  match f, g with
  | .var t d o w, .var t2 d2 o2 w2 =>
    obtain ⟨h1, h2, h3⟩ := h
    subst h1; subst h2; subst h3
    rw [Field.validate, Field.validate]
  | .arr e d o vs, .arr e2 d2 o2 vs2 =>
    obtain ⟨h1, h2, h3⟩ := h
    subst h1; subst h2; subst h3
    rw [Field.validate, Field.validate]
  | .struct n sch d o flds, .struct n2 sch2 d2 o2 flds2 =>
    obtain ⟨h1, h2, h3, h4⟩ := h
    subst h1; subst h2; subst h3; subst h4
    cases v <;> simp only [Field.validate]
  | .var _ _ _ _, .arr _ _ _ _ => exact absurd h (by simp [sameSpec])
  | .var _ _ _ _, .struct _ _ _ _ _ => exact absurd h (by simp [sameSpec])
  | .arr _ _ _ _, .var _ _ _ _ => exact absurd h (by simp [sameSpec])
  | .arr _ _ _ _, .struct _ _ _ _ _ => exact absurd h (by simp [sameSpec])
  | .struct _ _ _ _ _, .var _ _ _ _ => exact absurd h (by simp [sameSpec])
  | .struct _ _ _ _ _, .arr _ _ _ _ => exact absurd h (by simp [sameSpec])

/-- Elements that validate to themselves set and read back unchanged through
fresh factory fields (element loop of the array round trip). -/
theorem setList_rt (elem : Field)
    (hrt : ∀ y, Field.validate elem y = .ok y →
      (Field.set elem y).snd = none ∧ Field.get (Field.set elem y).fst = .ok y) :
    ∀ (xs : List Value) (i : Nat), Field.validateList elem xs i = .ok xs →
      ∃ fs, Field.setList elem xs i = .ok fs ∧ ∀ k, Field.getList fs k = .ok xs := by
  intro xs
  induction xs with
  | nil =>
    intro i _
    exact ⟨[], by rw [Field.setList], fun k => by rw [Field.getList]⟩
  | cons x rest ih =>
    intro i hv
    rw [Field.validateList] at hv
    cases hx : Field.validate elem x with
    | error e => rw [hx] at hv; simp at hv
    | ok w =>
      rw [hx] at hv
      cases hr : Field.validateList elem rest (i + 1) with
      | error e => rw [hr] at hv; simp at hv
      | ok ws =>
        rw [hr] at hv
        simp only [Except.ok.injEq, List.cons.injEq] at hv
        obtain ⟨hw, hws⟩ := hv
        rw [hw] at hx
        rw [hws] at hr
        have hrx := hrt x hx
        obtain ⟨fs, hset, hget⟩ := ih (i + 1) hr
        cases hsx : Field.set elem x with
        | mk f0 e0 =>
          rw [hsx] at hrx
          obtain ⟨he0, hget0⟩ := hrx
          simp only at he0 hget0
          subst he0
          refine ⟨f0 :: fs, ?_, ?_⟩
          · rw [Field.setList, hsx, hset]
          · intro k
            rw [Field.getList, hget0, hget (k + 1)]

/-- Fields that validate to themselves set and read back unchanged through
the live or cloned instance fields (field loop of the struct round trip). -/
theorem setFields_rt (tn : String) (kvs : List (String × Value)) :
    ∀ (flds0 sch : List (String × Field)) (ws : List (String × Value)),
      conformFields flds0 sch →
      (∀ p ∈ flds0, ∀ y, conform p.snd → Field.validate p.snd y = .ok y →
        (Field.set p.snd y).snd = none ∧ Field.get (Field.set p.snd y).fst = .ok y) →
      Field.validateFields tn sch kvs = .ok ws →
      (∀ p ∈ ws, dictGet kvs p.fst = p.snd) →
      ∃ out, Field.setFields tn kvs flds0 = (out, none)
        ∧ Field.getFields tn out = .ok ws := by
  intro flds0
  induction flds0 with
  | nil =>
    intro sch ws hcf hrt hv hd
    match sch with
    | [] =>
      simp only [Field.validateFields, Except.ok.injEq] at hv
      subst hv
      exact ⟨[], by rw [Field.setFields], by rw [Field.getFields]⟩
    | q :: ts => simp [conformFields] at hcf
  | cons p rest ih =>
    intro sch ws hcf hrt hv hd
    obtain ⟨nm, g⟩ := p
    match sch with
    | [] => simp [conformFields] at hcf
    | (nm2, t) :: ts =>
      rw [conformFields] at hcf
      obtain ⟨hnm, hspec, hcg, hcf2⟩ := hcf
      subst hnm
      rw [Field.validateFields] at hv
      cases hvt : Field.validate t (dictGet kvs nm) with
      | error e => rw [hvt] at hv; simp at hv
      | ok w =>
        rw [hvt] at hv
        cases hvr : Field.validateFields tn ts kvs with
        | error e => rw [hvr] at hv; simp at hv
        | ok outs =>
          rw [hvr] at hv
          simp only [Except.ok.injEq] at hv
          subst hv
          have hdw : dictGet kvs nm = w := hd (nm, w) (by simp)
          rw [hdw] at hvt
          have hvg : Field.validate g w = .ok w := by
            rw [validate_ignores_state g t w hspec]
            exact hvt
          have hrtg := hrt (nm, g) (by simp) w hcg hvg
          obtain ⟨fs, hset, hget⟩ := ih ts outs hcf2 (fun q hq => hrt q (by simp [hq])) hvr
            (fun q hq => hd q (by simp [hq]))
          cases hsg : Field.set g w with
          | mk g2 e0 =>
            rw [hsg] at hrtg
            obtain ⟨he0, hget2⟩ := hrtg
            simp only at he0 hget2
            subst he0
            refine ⟨(nm, g2) :: fs, ?_, ?_⟩
            · rw [Field.setFields, hdw, hsg, hset]
            · rw [Field.getFields, hget2, hget]

/-- The central round trip: on a conforming field, a value that validates to
itself sets successfully and the subsequent get() returns it unchanged. -/
theorem validate_set_get_rt (t : Field) :
    ∀ (x : Value), conform t → Field.validate t x = .ok x →
      (Field.set t x).snd = none ∧ Field.get (Field.set t x).fst = .ok x := by
  match t with
  | .var ty d o w =>
    intro x hc hv
    have hset : Field.set (.var ty d o w) x = (.var ty d o x, none) := by
      rw [Field.set, hv]
    rw [hset]
    refine ⟨rfl, ?_⟩
    rw [Field.get]
    cases hxn : x.isNone
    · simp
    · have hx : x = .vnone := (isNone_iff x).mp hxn
      subst hx
      rw [Field.validate] at hv
      rw [vnone_isNone] at hv
      simp only [if_true] at hv
      cases hdn : d.isNone
      · rw [hdn] at hv
        simp only [Bool.false_eq_true, if_false, Except.ok.injEq] at hv
        rw [hv] at hdn
        simp [Value.isNone] at hdn
      · rw [hdn] at hv
        simp only [if_true] at hv
        cases o with
        | false => simp at hv
        | true => simp
  | .arr elem d o vs =>
    intro x hc hv
    have hce : conform elem := by
      cases vs with
      | none => rw [conform] at hc; exact hc.1
      | some l => rw [conform] at hc; exact hc.1
    have hrt : ∀ y, Field.validate elem y = .ok y →
        (Field.set elem y).snd = none ∧ Field.get (Field.set elem y).fst = .ok y := by
      intro y hy
      have hsz : sizeOf elem < sizeOf (Field.arr elem d o vs) := by
        simp only [Field.arr.sizeOf_spec]
        omega
      exact validate_set_get_rt elem y hce hy
    cases hxn : x.isNone
    · rw [Field.validate, hxn] at hv
      simp only [Bool.false_eq_true, if_false] at hv
      obtain ⟨outs, houts⟩ := validateElems_ok_shape elem x x hv
      rw [houts] at hv
      rw [houts]
      rw [Field.validateElems] at hv
      simp only [iterElems] at hv
      cases hvl : Field.validateList elem outs 0 with
      | error e => rw [hvl] at hv; simp at hv
      | ok outs2 =>
        rw [hvl] at hv
        simp only [Except.ok.injEq, Value.vlist.injEq] at hv
        rw [hv] at hvl
        obtain ⟨fs, hset, hget⟩ := setList_rt elem hrt outs 0 hvl
        have hs : Field.set (.arr elem d o vs) (.vlist outs)
            = (.arr elem d o (some fs), none) := by
          rw [Field.set]
          simp only [Value.isNone, Bool.false_eq_true, if_false]
          rw [Field.setElems]
          simp only [iterElems]
          rw [hset]
        rw [hs]
        refine ⟨rfl, ?_⟩
        rw [Field.get, hget 0]
    · have hx : x = .vnone := (isNone_iff x).mp hxn
      subst hx
      rw [Field.validate] at hv
      rw [vnone_isNone] at hv
      simp only [if_true] at hv
      cases hdn : d.isNone
      · rw [hdn] at hv
        simp only [Bool.false_eq_true, if_false] at hv
        obtain ⟨outs, houts⟩ := validateElems_ok_shape elem d .vnone hv
        simp at houts
      · rw [hdn] at hv
        simp only [if_true] at hv
        cases o with
        | false => simp at hv
        | true =>
          have hs : Field.set (.arr elem d true vs) .vnone = (.arr elem d true none, none) := by
            rw [Field.set, vnone_isNone, hdn]
            simp
          rw [hs]
          exact ⟨rfl, by rw [Field.get]; simp⟩
  | .struct tn sch d o flds =>
    intro x hc hv
    rw [conform] at hc
    obtain ⟨hne, hnodup, hcs, hflds⟩ := hc
    cases hxn : x.isNone
    · match x, hxn with
      | .vdict kvs, _ =>
        rw [Field.validate] at hv
        simp only [Value.isNone, Bool.false_eq_true, if_false] at hv
        cases hfu : findUnknown kvs (keyNames sch) with
        | some bad => rw [hfu] at hv; simp at hv
        | none =>
          rw [hfu] at hv
          cases hvf : Field.validateFields tn sch kvs with
          | error e => rw [hvf] at hv; simp at hv
          | ok outs =>
            rw [hvf] at hv
            simp only [Except.ok.injEq, Value.vdict.injEq] at hv
            rw [hv] at hvf
            have hkeysEq : keyNames kvs = keyNames sch :=
              validateFields_keyNames tn kvs sch kvs hvf
            have hknd : (keyNames kvs).Nodup := by rw [hkeysEq]; exact hnodup
            have hd2 : ∀ p ∈ kvs, dictGet kvs p.fst = p.snd :=
              dictGet_self_of_nodup kvs hknd
            have hcf : conformFields (if flds.isEmpty then sch else flds) sch := by
              cases flds with
              | nil => simpa using conformSchema_conformFields sch hcs
              | cons a b =>
                simp only [List.isEmpty_cons, Bool.false_eq_true, if_false]
                rcases hflds with h | h
                · exact absurd h (by simp)
                · exact h
            have hrt : ∀ p ∈ (if flds.isEmpty then sch else flds), ∀ y, conform p.snd →
                Field.validate p.snd y = .ok y →
                (Field.set p.snd y).snd = none ∧ Field.get (Field.set p.snd y).fst = .ok y := by
              intro p hp y hcy hvy
              have hsz : sizeOf p.snd < sizeOf (Field.struct tn sch d o flds) := by
                have h1 : sizeOf p.snd < sizeOf sch ∨ sizeOf p.snd < sizeOf flds := by
                  by_cases hbe : flds.isEmpty = true
                  · left
                    apply sizeOf_snd_lt_of_mem
                    simpa [hbe] using hp
                  · right
                    apply sizeOf_snd_lt_of_mem
                    simpa [hbe] using hp
                simp only [Field.struct.sizeOf_spec]
                rcases h1 with h | h <;> omega
              exact validate_set_get_rt p.snd y hcy hvy
            obtain ⟨out, hset, hget⟩ := setFields_rt tn kvs _ sch kvs hcf hrt hvf hd2
            have hnames0 : keyNames (if flds.isEmpty then sch else flds) = keyNames sch :=
              conformFields_keyNames _ sch hcf
            have hfu0 : findUnknown kvs (keyNames (if flds.isEmpty then sch else flds)) = none := by
              rw [hnames0]
              exact hfu
            have hs : Field.set (.struct tn sch d o flds) (.vdict kvs)
                = (.struct tn sch d o out, none) := by
              rw [Field.set]
              simp only [Value.isNone, Bool.false_eq_true, if_false]
              rw [Field.setStructBody, hfu0, hset]
            rw [hs]
            refine ⟨rfl, ?_⟩
            have hkout : keyNames out = keyNames sch := by
              have h1 := setFields_keyNames tn kvs (if flds.isEmpty then sch else flds)
              rw [hset] at h1
              simp only at h1
              rw [h1]
              exact hnames0
            have hout_ne : out.isEmpty = false := by
              cases out with
              | nil =>
                exfalso
                apply hne
                cases sch with
                | nil => rfl
                | cons a b => simp [keyNames] at hkout
              | cons a b => rfl
            rw [Field.get, hout_ne]
            simp only [Bool.false_eq_true, if_false]
            rw [hget]
      | .vnone, hxn => simp [Value.isNone] at hxn
      | .vint n, _ => simp [Field.validate, Value.isNone] at hv
      | .vfloat q, _ => simp [Field.validate, Value.isNone] at hv
      | .vstr s, _ => simp [Field.validate, Value.isNone] at hv
      | .vbool b, _ => simp [Field.validate, Value.isNone] at hv
      | .vlist xs, _ => simp [Field.validate, Value.isNone] at hv
    · have hx : x = .vnone := (isNone_iff x).mp hxn
      subst hx
      simp only [Field.validate, vnone_isNone, if_true] at hv
      cases hdn : d.isNone
      · rw [hdn] at hv
        simp only [Bool.false_eq_true, if_false, Except.ok.injEq] at hv
        rw [hv] at hdn
        simp [Value.isNone] at hdn
      · rw [hdn] at hv
        simp only [if_true] at hv
        cases o with
        | false => simp at hv
        | true =>
          have hs : Field.set (.struct tn sch d true flds) .vnone
              = (.struct tn sch d true [], none) := by
            rw [Field.set, vnone_isNone, hdn]
            simp
          rw [hs]
          exact ⟨rfl, by rw [Field.get]; simp⟩
termination_by sizeOf t
decreasing_by
  all_goals simp_wf
  all_goals (try simp only [Field.arr.sizeOf_spec, Field.struct.sizeOf_spec, sizeOf_bool] at hsz)
  all_goals omega

/-- C7: for a composite instance that is fully populated with valid values
(formalized as: its get() succeeds, and the produced mapping re-validates
to itself) and whose state conforms to its schema, set(get()) succeeds and
a subsequent get() returns the same mapping: set after get is idempotent
with respect to observable plain values. -/
theorem c7_set_get_roundtrip (tn : String) (sch : List (String × Field)) (d : Value)
    (o : Bool) (flds : List (String × Field)) (v : Value)
    (hc : conform (.struct tn sch d o flds))
    (hg : Field.get (.struct tn sch d o flds) = .ok v)
    (hv : Field.validate (.struct tn sch d o flds) v = .ok v) :
    (Field.set (.struct tn sch d o flds) v).snd = none
    ∧ Field.get (Field.set (.struct tn sch d o flds) v).fst = .ok v :=
  validate_set_get_rt (.struct tn sch d o flds) v hc hv

/-- C7 witness: the round trip applied to a populated one-int-field struct. -/
theorem c7_witness :
    (Field.set (.struct "S" [("a", .var .int .vnone false .vnone)] .vnone false
        [("a", .var .int .vnone false (.vint 3))]) (.vdict [("a", .vint 3)])).snd = none
    ∧ Field.get (Field.set (.struct "S" [("a", .var .int .vnone false .vnone)] .vnone false
        [("a", .var .int .vnone false (.vint 3))]) (.vdict [("a", .vint 3)])).fst
      = .ok (.vdict [("a", .vint 3)]) := by
  apply c7_set_get_roundtrip
  · simp [conform, conformSchema, conformFields, conformElems, sameSpec, keyNames]
  · simp [Field.get, Field.getFields, Value.isNone, wrapField]
  · simp [Field.validate, Field.validateFields, findUnknown, keyNames, dictGet,
      List.lookup, isinst, Value.isNone]

/-- Subscripting success forces a struct receiver with the child under the
key in its live field map. -/
theorem getitem_ok_struct (s c : Field) (k : String)
    (h : Field.getitem s k = .ok c) :
    ∃ tn sch d o flds, s = .struct tn sch d o flds ∧ flds.lookup k = some c := by
  match s with
  | .struct tn sch d o flds =>
    rw [Field.getitem] at h
    cases hl : flds.lookup k with
    | none => rw [hl] at h; simp at h
    | some g =>
      rw [hl] at h
      simp only [Except.ok.injEq] at h
      subst h
      exact ⟨tn, sch, d, o, flds, rfl, hl⟩
  | .var _ _ _ _ => rw [Field.getitem] at h; simp at h
  | .arr _ _ _ vs => cases vs <;> (rw [Field.getitem] at h; simp at h)

/-- Conformance restricts to children reached by subscripting. -/
theorem conform_getitem (s c : Field) (k : String)
    (hc : conform s) (h : Field.getitem s k = .ok c) : conform c := by
  obtain ⟨tn, sch, d, o, flds, hs, hl⟩ := getitem_ok_struct s c k h
  subst hs
  rw [conform] at hc
  obtain ⟨_, _, _, hflds⟩ := hc
  have hmem := lookup_mem flds k c hl
  rcases hflds with h2 | h2
  · subst h2; simp at hmem
  · exact conformFields_mem flds sch h2 (k, c) hmem

/-- The flat-path round trip over explicit key segments: descending to a
conforming field and assigning a value that validates to itself succeeds,
and re-descending the same path reaches the updated live field, whose
get() returns the assigned value. -/
theorem set_get_flat_go (ks : List String) :
    ∀ (s g : Field) (x : Value),
      conform s →
      Field.getFlatGo s ks = .ok g →
      ks ≠ [] →
      Field.validate g x = .ok x →
      ∃ s2 g2, Field.setFlatGo s ks x = (s2, none)
        ∧ Field.getFlatGo s2 ks = .ok g2
        ∧ Field.get g2 = .ok x := by
  induction ks with
  | nil => intro s g x _ _ hne _; exact absurd rfl hne
  | cons k ks ih =>
    intro s g x hc hp hne hv
    match ks, ih with
    | [], _ =>
      rw [Field.getFlatGo] at hp
      cases hgi : Field.getitem s k with
      | error e => rw [hgi] at hp; simp at hp
      | ok c =>
        rw [hgi] at hp
        simp only [Field.getFlatGo, Except.ok.injEq] at hp
        obtain ⟨tn, sch, d, o, flds, hs, hl⟩ := getitem_ok_struct s c k hgi
        subst hs
        have hcg : conform c := conform_getitem _ c k hc hgi
        rw [← hp] at hv
        have hrt := validate_set_get_rt c x hcg hv
        cases hsg : Field.set c x with
        | mk g2 e0 =>
          rw [hsg] at hrt
          obtain ⟨he0, hg2⟩ := hrt
          simp only at he0 hg2
          subst he0
          refine ⟨.struct tn sch d o (replaceKey flds k g2), g2, ?_, ?_, hg2⟩
          · simp only [Field.setFlatGo, Field.setitem, hl, hsg]
          · simp only [Field.getFlatGo, Field.getitem, lookup_replaceKey flds k c g2 hl]
    | k2 :: ks2, ih =>
      rw [Field.getFlatGo] at hp
      cases hgi : Field.getitem s k with
      | error e => rw [hgi] at hp; simp at hp
      | ok c =>
        rw [hgi] at hp
        simp at hp
        obtain ⟨tn, sch, d, o, flds, hs, hl⟩ := getitem_ok_struct s c k hgi
        subst hs
        have hcc : conform c := conform_getitem _ c k hc hgi
        obtain ⟨c2, g2, hset, hget, hgg⟩ := ih c g x hcc hp (by simp) hv
        refine ⟨.struct tn sch d o (replaceKey flds k c2), g2, ?_, ?_, hgg⟩
        · simp only [Field.setFlatGo, hgi, hset, Field.replaceChild]
        · have hgi2 : Field.getitem (.struct tn sch d o (replaceKey flds k c2)) k = .ok c2 := by
            rw [Field.getitem, lookup_replaceKey flds k c c2 hl]
          rw [Field.getFlatGo, hgi2]
          simpa using hget

/-- C6 counterexample: with a one-field schema, after set_flat at the path
consisting of the single segment a with the value 5, get_flat at the same
path returns the live Variable field object, whose get() is 5; the Python
equality between that field object and the plain value 5 is False, so
get_flat does not return a value equal to x as the claim states. -/
theorem c6_counterexample :
    Field.set_flat
        (.struct "S" [("a", .var .int .vnone false .vnone)] .vnone false
          [("a", .var .int .vnone false (.vint 1))]) ["a"] (.vint 5)
      = (.struct "S" [("a", .var .int .vnone false .vnone)] .vnone false
          [("a", .var .int .vnone false (.vint 5))], none)
    ∧ Field.get_flat
        (.struct "S" [("a", .var .int .vnone false .vnone)] .vnone false
          [("a", .var .int .vnone false (.vint 5))]) ["a"]
      = .ok (.var .int .vnone false (.vint 5))
    ∧ pyEqValueField (.vint 5) (.var .int .vnone false (.vint 5)) = false
    ∧ Field.get (.var .int .vnone false (.vint 5)) = .ok (.vint 5) := by
  refine ⟨?_, ?_, rfl, ?_⟩
  · simp [Field.set_flat, Field.setFlatGo, Field.setitem, List.lookup, Field.set,
      Field.validate, Value.isNone, isinst, replaceKey]
  · simp [Field.get_flat, Field.getFlatGo, Field.getitem, List.lookup]
  · simp [Field.get, Value.isNone]

/-- C6 (amended): for every conforming composite, valid nested path (the
nonempty segment list of the flat key) addressing a field g, and value x
that validates to itself on g: set_flat succeeds, and get_flat on the same
path returns the updated live field object whose get() equals x (get_flat
yields the field, not the plain value; the plain value is one further
get() away). -/
theorem c6_flat_roundtrip (s g : Field) (ks : List String) (x : Value)
    (hc : conform s)
    (hp : Field.getFlatGo s ks = .ok g)
    (hne : ks ≠ [])
    (hv : Field.validate g x = .ok x) :
    ∃ s2 g2, Field.set_flat s ks x = (s2, none)
      ∧ Field.get_flat s2 ks = .ok g2
      ∧ Field.get g2 = .ok x := by
  obtain ⟨s2, g2, hset, hget, hgg⟩ := set_get_flat_go ks s g x hc hp hne hv
  refine ⟨s2, g2, ?_, ?_, hgg⟩
  · rw [Field.set_flat, hset]
  · rw [Field.get_flat, hget]

/-- C6 witness: the amended theorem applied to the one-field struct at the
single-segment path a with the value 5. -/
theorem c6_witness :
    ∃ s2 g2, Field.set_flat (.struct "S" [("a", .var .int .vnone false .vnone)] .vnone false
        [("a", .var .int .vnone false (.vint 1))]) ["a"] (.vint 5) = (s2, none)
      ∧ Field.get_flat s2 ["a"] = .ok g2
      ∧ Field.get g2 = .ok (.vint 5) := by
  apply c6_flat_roundtrip _ (.var .int .vnone false (.vint 1))
  · simp [conform, conformSchema, conformFields, conformElems, sameSpec, keyNames]
  · simp [Field.getFlatGo, Field.getitem, List.lookup]
  · simp
  · simp [Field.validate, Value.isNone, isinst]

/-- C9: validate is pure in the source (its bodies perform no assignment to
stored state, which the embedding reflects by typing it as a function with
no state output), and moreover its result is independent of the stored
instance state: two fields sharing a declaration validate every value
identically, whatever their current value, element list or field map. -/
theorem c9_validate_state_independent (f g : Field) (v : Value)
    (h : sameSpec f g) : Field.validate f v = Field.validate g v :=
  validate_ignores_state f g v h

/-- C9 witness: two int variables with the same declaration but different
stored values validate the value 9 identically. -/
theorem c9_witness :
    sameSpec (.var .int .vnone false (.vint 1)) (.var .int .vnone false (.vint 2))
    ∧ Field.validate (.var .int .vnone false (.vint 1)) (.vint 9)
      = Field.validate (.var .int .vnone false (.vint 2)) (.vint 9) :=
  ⟨⟨rfl, rfl, rfl⟩,
   c9_validate_state_independent (.var .int .vnone false (.vint 1))
     (.var .int .vnone false (.vint 2)) (.vint 9) ⟨rfl, rfl, rfl⟩⟩

/-- C10 witness: the theorem applied to Array(int) set to [1, 2]: membership
of the plain value 1 that was just stored still tests False. -/
theorem c10_witness :
    Field.containsElem
      (.arr (.var .int .vnone false .vnone) .vnone false
        (some [.var .int .vnone false (.vint 1), .var .int .vnone false (.vint 2)]))
      (.vint 1) = .ok false := by
  refine c10_contains_plain_false (.arr (.var .int .vnone false .vnone) .vnone false none) _
    [.vint 1, .vint 2] (.vint 1) ?_
  simp [Field.set, Field.setElems, Field.setList, Field.validate, Value.isNone, isinst, iterElems]

end SafeConfig
